import Mathlib

/-!
Verification development for the text-to-video repository.

Shallow embedding of:
- `fix_gemini_json` (src/pipeline.py, the ResponseSanitizer),
- `validate_storyboard` (src/pipeline.py, the StoryboardValidator),
- `storyboard_to_manim_code` (src/script_with_noobject.py, the StoryboardCompiler),
- `debug_code` (src/app.py, the RepairLoop).

Strings are modelled over `List Char` (ASCII inputs; Python regex classes
`\s` and `\d` are modelled by their ASCII fragments).
-/

/-- The ASCII fragment of Python's regex class `\s` and of `str.strip()`'s
default whitespace set. -/
def pySpace (c : Char) : Bool :=
  c = ' ' ∨ c = '\t' ∨ c = '\n' ∨ c = '\r' ∨ c = '\x0b' ∨ c = '\x0c'

/-- Python `str.strip()`: drop whitespace from both ends. -/
def pyStrip (l : List Char) : List Char :=
  (l.dropWhile pySpace).rdropWhile pySpace

/-- The closing delimiter of a fenced block: three backticks. -/
def ticks : List Char := '\x60' :: '\x60' :: '\x60' :: []

/-- The opening tag of a fenced json block. -/
def jsonFence : List Char := '\x60' :: '\x60' :: '\x60' :: 'j' :: 's' :: 'o' :: 'n' :: []

/-- Scan for the first occurrence of three backticks; return the text before
it (`none` when there is no occurrence).  This is the lazy `(.*?)` body of the
pattern `(three backticks)json(.*?)(three backticks)`. -/
def takeUntilTicks : List Char → Option (List Char)
  | [] => none
  | c :: rest =>
    if ticks.isPrefixOf (c :: rest) then some []
    else (takeUntilTicks rest).map (c :: ·)

/-- Model of `re.search` of the fenced-json pattern with `re.DOTALL`: leftmost start of
the opening tag that has a closing delimiter, and the (lazy, shortest) body in
between. -/
def findFenced : List Char → Option (List Char)
  | [] => none
  | c :: rest =>
    if jsonFence.isPrefixOf (c :: rest) then
      match takeUntilTicks ((c :: rest).drop 7) with
      | some inner => some inner
      | none => findFenced rest
    else findFenced rest

/-- Step 1 of `fix_gemini_json`: if a fenced json block exists, keep its
stripped body, else pass the text through. -/
def fenceStep (l : List Char) : List Char :=
  match findFenced l with
  | some inner => pyStrip inner
  | none => l

/-- Step 2 of `fix_gemini_json`, the substitution
`(\(digits, spaces digits\))  to  [digits, digits]` performed left to right
without rescanning replacements (`re.sub`).  Fuel-driven so that the kernel
can evaluate it; the wrapper passes `l.length`, which is always enough fuel
because every step consumes at least one character. -/
def tupleSubF : ℕ → List Char → List Char
  | 0, l => l
  | _ + 1, [] => []
  | fuel + 1, c :: rest =>
    if c = '(' then
      let d1 := rest.takeWhile Char.isDigit
      let r1 := rest.dropWhile Char.isDigit
      if d1 ≠ [] then
        match r1 with
        | ',' :: r2 =>
          let r3 := r2.dropWhile pySpace
          let d2 := r3.takeWhile Char.isDigit
          let r4 := r3.dropWhile Char.isDigit
          if d2 ≠ [] then
            match r4 with
            | ')' :: r5 => '\x5b' :: (d1 ++ ',' :: ' ' :: d2 ++ '\x5d' :: tupleSubF fuel r5)
            | _ => c :: tupleSubF fuel rest
          else c :: tupleSubF fuel rest
        | _ => c :: tupleSubF fuel rest
      else c :: tupleSubF fuel rest
    else c :: tupleSubF fuel rest

/-- Step 2 wrapper at full fuel. -/
def tupleSub (l : List Char) : List Char := tupleSubF l.length l

/-- Step 3 of `fix_gemini_json`: remove a comma standing (up to whitespace)
before a closing bracket or brace, the substitution of `,(\s*[\x5d\x7d])` by
the group.  Scanning resumes inside the kept group, which is harmless: a match
must start with a comma and the kept group holds none, so the matches found
are exactly the ones `re.sub` finds. -/
def commaSub : List Char → List Char
  | [] => []
  | c :: rest =>
    if c = ',' then
      match rest.dropWhile pySpace with
      | b :: _ => if b = '\x5d' ∨ b = '\x7d' then commaSub rest else c :: commaSub rest
      | [] => c :: commaSub rest
    else c :: commaSub rest

/-- Step 4 of `fix_gemini_json`: strip control characters (code points below
0x20). -/
def stripCtrl (l : List Char) : List Char :=
  l.filter (fun c => decide (0x20 ≤ c.toNat))

/-- Step 5 of `fix_gemini_json`: append the missing closing braces, then the
missing closing brackets, when openers outnumber closers. -/
def balanceStep (l : List Char) : List Char :=
  let openBraces := l.count '\x7b'
  let closeBraces := l.count '\x7d'
  let l2 := if closeBraces < openBraces
    then l ++ List.replicate (openBraces - closeBraces) '\x7d' else l
  let openBrackets := l2.count '\x5b'
  let closeBrackets := l2.count '\x5d'
  if closeBrackets < openBrackets
    then l2 ++ List.replicate (openBrackets - closeBrackets) '\x5d' else l2

/-- The function `fix_gemini_json` from src/pipeline.py: the five sanitizer steps in
source order. -/
def fix_gemini_json (s : String) : String :=
  ⟨balanceStep (stripCtrl (commaSub (tupleSub (fenceStep s.data))))⟩


/-! ## StoryboardValidator: `validate_storyboard` from src/pipeline.py -/

/-- JSON-like values as produced by parsing the model's output. -/
inductive JsonVal
  | null
  | bool (b : Bool)
  | num (q : ℚ)
  | str (s : String)
  | arr (elems : List JsonVal)
  | obj (fields : List (String × JsonVal))

/-- The runtime errors the (duck-typed) validator can raise: calling `.get` on
a non-dict raises `AttributeError`; iterating a non-iterable or indexing into
a scene element that is not a dict raises `TypeError`.  The source defines no
error class of its own. -/
inductive PyErr
  | attributeError
  | typeError
deriving DecidableEq

/-- Is the value a Python list? -/
def isJsonArr : JsonVal → Bool
  | .arr _ => true
  | _ => false

/-- Python dict assignment `d[k] = v` on an insertion-ordered dict: replace in
place when the key exists, append otherwise. -/
def dictSetJson (m : List (String × JsonVal)) (k : String) (v : JsonVal) :
    List (String × JsonVal) :=
  if m.any (fun p => p.1 == k) then
    m.map (fun p => if p.1 == k then (p.1, v) else p)
  else m ++ [(k, v)]

/-- The per-scene body of `validate_storyboard`: a missing or non-list
`mobjects` and a missing or non-list `animations` are each replaced by an
empty list; every other field is untouched. -/
def patchScene (fields : List (String × JsonVal)) : List (String × JsonVal) :=
  let f1 := match fields.lookup "mobjects" with
    | some v => if isJsonArr v then fields else dictSetJson fields "mobjects" (.arr [])
    | none => dictSetJson fields "mobjects" (.arr [])
  match f1.lookup "animations" with
  | some v => if isJsonArr v then f1 else dictSetJson f1 "animations" (.arr [])
  | none => dictSetJson f1 "animations" (.arr [])

/-- Iterate `validate_storyboard`'s loop over the scenes list.  A scene
element that is not a dict makes the Python loop body raise (`TypeError`);
the first such element aborts the whole call. -/
def patchScenes : List JsonVal → Except PyErr (List JsonVal)
  | [] => .ok []
  | .obj fields :: rest =>
    (patchScenes rest).map (fun l => .obj (patchScene fields) :: l)
  | _ :: _ => .error .typeError

/-- Is the value a Python dict? -/
def isJsonObj : JsonVal → Bool
  | .obj _ => true
  | _ => false

/-- The scene patch lifted to values (for stating the validator's effect on a
list of scene dicts). -/
def patchSceneVal : JsonVal → JsonVal
  | .obj fields => .obj (patchScene fields)
  | v => v

/-- The function `validate_storyboard` from src/pipeline.py, with Python's duck typing made
explicit: `storyboard.get("scenes", [])` raises `AttributeError` on a
non-dict; a missing `scenes` key defaults to `[]`, so the loop runs zero times
and the storyboard is returned unchanged; iterating a number, bool or null
raises `TypeError`; iterating a nonempty string or dict yields string
elements, on which the loop body raises `TypeError` (an empty string or dict
iterates zero times).  The function never raises any schema-specific error. -/
def validate_storyboard : JsonVal → Except PyErr JsonVal
  | .obj fields =>
    match fields.lookup "scenes" with
    | none => .ok (.obj fields)
    | some (.arr scenes) =>
      match patchScenes scenes with
      | .ok patched =>
        .ok (.obj (fields.map (fun p =>
          if p.1 == "scenes" then (p.1, JsonVal.arr patched) else p)))
      | .error e => .error e
    | some (.str s) => if s = "" then .ok (.obj fields) else .error .typeError
    | some (.obj f) => if f.isEmpty then .ok (.obj fields) else .error .typeError
    | some _ => .error .typeError
  | _ => .error .attributeError

/-! ## RepairLoop: `debug_code` from src/app.py -/

/-- How one call of `debug_code` can end: return the fixed code after a
successful dry run, re-raise the `JSONDecodeError` when the model's structured
response fails to parse, or raise `RuntimeError` when the retry budget is
exhausted. -/
inductive DebugOutcome
  | fixed (code : String)
  | parseError
  | exhausted
deriving DecidableEq

/-- The `while attempt < max_retries` loop of `debug_code`, counting down the
remaining attempts.  `request_fix` stands for one model round trip followed by
`json.loads(resp.text)["code"]` (`none` is a `JSONDecodeError`); `execute`
stands for `exec(fixed_code, {})` (`none` is success, `some tb` the captured
traceback).  Besides the outcome, the result carries the final
`error_history` and — as instrumentation for stating the budget bound — the
number of `execute` calls made. -/
def debug_loop (request_fix : String → List String → Option String)
    (execute : String → Option String) :
    ℕ → String → List String → DebugOutcome × List String × ℕ
  | 0, _, history => (.exhausted, history, 0)
  | n + 1, fixed_code, history =>
    match request_fix fixed_code history with
    | none => (.parseError, history, 0)
    | some newCode =>
      match execute newCode with
      | none => (.fixed newCode, history, 1)
      | some diag =>
        let r := debug_loop request_fix execute n newCode (history ++ [diag])
        (r.1, r.2.1, r.2.2 + 1)

/-- The function `debug_code` from src/app.py: the history starts seeded with the caller's
initial diagnostic (`error_history = [error]`), then the loop runs for at most
`max_retries` attempts (the source's default is 5). -/
def debug_code (request_fix : String → List String → Option String)
    (execute : String → Option String)
    (code error : String) (max_retries : ℕ) : DebugOutcome × List String × ℕ :=
  debug_loop request_fix execute max_retries code [error]


/-! ## StoryboardCompiler: `storyboard_to_manim_code` from
src/script_with_noobject.py

The storyboard dict is modelled structurally: keys the code reads
unconditionally (`title`, `scenes`, `narration`, `type`) become fields, keys
read through `.get` with a default become optional fields or lists.  The code
never reads `scene_class`, so it has no field here. -/

/-- Values of mobject `kwargs` entries (the JSON scalars the prompts ask for;
`bool` is a Python `int` in arithmetic). -/
inductive PyVal
  | int (n : ℤ)
  | str (s : String)
  | bool (b : Bool)
  | none
deriving DecidableEq

/-- Python `sep.join(parts)` (used with ", " and "\n"). -/
def pyJoin (sep : String) : List String → String
  | [] => ""
  | [x] => x
  | x :: xs => x ++ sep ++ pyJoin sep xs

/-- Python `str.lower()` (character-wise, as core `String.toLower` does, but
kernel-reducible). -/
def pyLower (s : String) : String := ⟨s.data.map Char.toLower⟩

/-- Python slicing `s[:n]`. -/
def takeChars (n : ℕ) (s : String) : String := ⟨s.data.take n⟩

/-- Python `str()` of a kwargs value, as interpolated into an f-string. -/
def pyStr : PyVal → String
  | .int n => toString n
  | .str s => s
  | .bool true => "True"
  | .bool false => "False"
  | .none => "None"

/-- Python `repr()` of a kwargs value (string escaping is not modelled; the
claims never need a quote inside a kwargs string). -/
def pyRepr : PyVal → String
  | .int n => toString n
  | .str s => "\x27" ++ s ++ "\x27"
  | .bool true => "True"
  | .bool false => "False"
  | .none => "None"

/-- Numeric value of a kwargs entry, for the row-width arithmetic
`row_width += approx_size + 0.5`.  A Python bool is an int there; a str or
None would raise `TypeError`, so the layout theorems are stated for numeric
size parameters only. -/
def pyNum : PyVal → ℚ
  | .int n => (n : ℚ)
  | .bool b => if b then 1 else 0
  | .str _ => 0
  | .none => 0

/-- The `target` field of an animation entry: absent/null, a single string,
or a list of strings. -/
inductive AnimTarget
  | none
  | str (s : String)
  | list (elems : List String)
deriving DecidableEq

/-- One entry of a scene's `mobjects` list: `type` is read unconditionally,
`kwargs` defaults to the empty dict. -/
structure Mobj where
  type : String
  kwargs : List (String × PyVal)
deriving DecidableEq

/-- One entry of a scene's `animations` list: both fields are read through
`.get`. -/
structure AnimSpec where
  type : Option String
  target : AnimTarget
deriving DecidableEq

/-- One entry of `scenes`: `narration` is read unconditionally; `mobjects`
and `animations` default to empty lists. -/
structure SceneSpec where
  narration : String
  mobjects : List Mobj
  animations : List AnimSpec
deriving DecidableEq

/-- The storyboard dict as consumed by the compiler. -/
structure Storyboard where
  title : String
  scenes : List SceneSpec
deriving DecidableEq

/-- Constant `MAX_ROW_OBJECTS = 5`, default max objects per row. -/
def MAX_ROW_OBJECTS : ℕ := 5

/-- Constant `ROW_WIDTH_LIMIT = 12`, approximate width in scene units. -/
def ROW_WIDTH_LIMIT : ℚ := 12

/-- The whitelist `allowed_keys` of `sanitize_mobject_kwargs`. -/
def allowed_keys : List String :=
  ["radius", "side_length", "height", "fill_color", "fill_opacity",
   "stroke_color", "stroke_width", "font_size", "text", "x_range", "y_range",
   "axis_config", "color", "start", "end", "point", "matrix"]

/-- The function `sanitize_mobject_kwargs`: keep only whitelisted kwargs keys. -/
def sanitize_mobject_kwargs (kwargs : List (String × PyVal)) :
    List (String × PyVal) :=
  kwargs.filter (fun p => allowed_keys.contains p.1)

/-- The mobject's bound name:
`mobj.get("kwargs", {}).get("name", f"{type.lower()}{idx}_{mobj_idx}")` with
`idx` the 1-based scene index and `mobj_idx` the 1-based declaration index. -/
def mobjName (sceneIdx mobjIdx : ℕ) (m : Mobj) : String :=
  match m.kwargs.lookup "name" with
  | some v => pyStr v
  | Option.none => pyLower m.type ++ toString sceneIdx ++ "_" ++ toString mobjIdx

/-- The dominant size used by the layout accumulator:
`kwargs.get("radius", kwargs.get("side_length", 1))` on the sanitized
kwargs. -/
def mobjSize (m : Mobj) : ℚ :=
  let kwargs := sanitize_mobject_kwargs m.kwargs
  pyNum (((kwargs.lookup "radius").orElse
    (fun _ => kwargs.lookup "side_length")).getD (.int 1))

/-- The construction statement emitted for one mobject. -/
def mobjLine (sceneIdx mobjIdx : ℕ) (m : Mobj) : String :=
  let kwargs := sanitize_mobject_kwargs m.kwargs
  let kwargsStr := pyJoin ", " (kwargs.map (fun p => p.1 ++ "=" ++ pyRepr p.2))
  ("        " ++ mobjName sceneIdx mobjIdx m ++ " = ") ++ (m.type ++ "(")
    ++ (kwargsStr ++ ")")

/-- Rendering of the scale factor inside the emitted `.scale(...)` statement.
Python prints the float's shortest decimal; the digits are irrelevant to every
claim and the embedding prints the rational directly. -/
def qLit (q : ℚ) : String := toString q

/-- The `.scale(...)` statements emitted when a row closes. -/
def scaleLines (row_objs : List String) (scale : ℚ) : List String :=
  row_objs.map (fun obj => "        " ++ obj ++ ".scale(" ++ qLit scale ++ ")")

/-- The positioning statements of one row: the first object to the top edge,
each later object next to its predecessor. -/
def positionLines : List String → List String
  | [] => []
  | first :: rest =>
    ("        " ++ first ++ ".to_edge(UP)") ::
      (rest.zip (first :: rest)).map (fun p =>
        "        " ++ p.1 ++ ".next_to(" ++ p.2 ++ ", RIGHT, buff=0.5)")

/-- Python dict assignment for the `mobjects_map` (insertion-ordered,
replace-in-place on an existing key). -/
def dictSet (m : List (String × String)) (k v : String) :
    List (String × String) :=
  if m.any (fun p => p.1 == k) then
    m.map (fun p => if p.1 == k then (p.1, v) else p)
  else m ++ [(k, v)]

/-- The per-scene mutable state of the mobject loop. -/
structure RowState where
  lines : List String
  row_objs : List String
  row_count : ℕ
  row_width : ℚ
  mobjects_map : List (String × String)

/-- One iteration of the mobject loop: emit the construction statement, add
the object to the running row, and when the row reaches `MAX_ROW_OBJECTS`
objects or its accumulated width exceeds `ROW_WIDTH_LIMIT`, emit the uniform
scaling by `min(1, ROW_WIDTH_LIMIT / row_width)` and the positioning
statements, then reset the row. -/
def mobjStep (sceneIdx : ℕ) (st : RowState) (im : ℕ × Mobj) : RowState :=
  let name := mobjName sceneIdx im.1 im.2
  let lines1 := st.lines ++ [mobjLine sceneIdx im.1 im.2]
  let width := st.row_width + mobjSize im.2 + 1/2
  let objs := st.row_objs ++ [name]
  let count := st.row_count + 1
  if MAX_ROW_OBJECTS ≤ count ∨ ROW_WIDTH_LIMIT < width then
    { lines := lines1 ++ scaleLines objs (min 1 (ROW_WIDTH_LIMIT / width))
        ++ positionLines objs,
      row_objs := [], row_count := 0, row_width := 0,
      mobjects_map := dictSet st.mobjects_map name im.2.type }
  else
    { lines := lines1, row_objs := objs, row_count := count, row_width := width,
      mobjects_map := dictSet st.mobjects_map name im.2.type }

/-- The f-string interpolation of `anim.get("type")` (None prints "None"). -/
def animTypeStr : Option String → String
  | some s => s
  | Option.none => "None"

/-- Python truthiness of the `target` field (`if not target: continue`). -/
def targetFalsy : AnimTarget → Bool
  | .none => true
  | .str s => s = ""
  | .list l => l.isEmpty

/-- The nested loop of the list-target branch: for each element, append the
name of every map entry whose class or name equals it (the inner loop has no
break). -/
def collectTargets (m : List (String × String)) : List String → List String
  | [] => []
  | t :: ts =>
    ((m.filter (fun p => p.2 == t || p.1 == t)).map (fun p => p.1))
      ++ collectTargets m ts

/-- The statement(s) emitted for one animation entry: a falsy target is
skipped; a string target resolves to the first map entry whose class or name
equals it (no match drops the animation silently); a list target resolves
every element to all its matches and emits one composite `self.play`. -/
def animLine (m : List (String × String)) (a : AnimSpec) : List String :=
  if targetFalsy a.target then []
  else
    match a.target with
    | .none => []
    | .str t =>
      match m.find? (fun p => p.2 == t || p.1 == t) with
      | some p => ["        self.play(" ++ animTypeStr a.type ++ "(" ++ p.1 ++ "))"]
      | Option.none => []
    | .list ts =>
      let targets := collectTargets m ts
      if targets.isEmpty then []
      else ["        self.play(" ++ animTypeStr a.type ++ "("
        ++ pyJoin ", " targets ++ "))"]

/-- All lines emitted for one scene: the comment header, the mobject loop,
the positioning of a leftover row, the animation statements, and the terminal
wait. -/
def sceneLines (sceneIdx : ℕ) (scene : SceneSpec) : List String :=
  let header := "        # Scene " ++ toString sceneIdx ++ ": "
    ++ takeChars 50 scene.narration ++ "..."
  let st := (List.enumFrom 1 scene.mobjects).foldl (mobjStep sceneIdx)
    { lines := [], row_objs := [], row_count := 0, row_width := 0,
      mobjects_map := [] }
  let withRows := st.lines
    ++ (if st.row_objs.isEmpty then [] else positionLines st.row_objs)
  (header :: withRows) ++ (scene.animations.map (animLine st.mobjects_map)).flatten
    ++ ["        self.wait(1)\n"]

/-- Model of `storyboard['title'].replace(' ', '')`. -/
def removeSpaces (s : String) : String := ⟨s.data.filter (fun c => c ≠ ' ')⟩

/-- The function `storyboard_to_manim_code` from src/script_with_noobject.py: the fixed
header (the scene class is always `ThreeDScene`), then each scene's lines,
joined with newlines.  The function consults no vocabulary table. -/
def storyboard_to_manim_code (sb : Storyboard) : String :=
  let lines := ["from manim import *", "",
      "class " ++ removeSpaces sb.title ++ "(ThreeDScene):",
      "    def construct(self):"]
    ++ ((List.enumFrom 1 sb.scenes).map (fun p => sceneLines p.1 p.2)).flatten
  pyJoin "\n" lines

/-- The accumulated width of a row: each size plus the 0.5 buffer added per
object by `row_width += approx_size + 0.5`. -/
def rowWidth (sizes : List ℚ) : ℚ := (sizes.map (fun s => s + 1/2)).sum

/-- The row decomposition computed by the mobject loop, abstracted from the
line emission: fold the declared dominant sizes left to right, closing a row
(with its scale factor `min(1, ROW_WIDTH_LIMIT / row_width)`) exactly when
`mobjStep` would, and flushing a leftover row unscaled (scale 1). -/
def layoutRows : List ℚ → List ℚ → List (List ℚ × ℚ)
  | [], cur => if cur.isEmpty then [] else [(cur, 1)]
  | s :: rest, cur =>
    let cur2 := cur ++ [s]
    if MAX_ROW_OBJECTS ≤ cur2.length ∨ ROW_WIDTH_LIMIT < rowWidth cur2 then
      (cur2, min 1 (ROW_WIDTH_LIMIT / rowWidth cur2)) :: layoutRows rest []
    else layoutRows rest cur2

/-- The dominant sizes of a scene's declared mobjects, in order. -/
def sceneSizes (scene : SceneSpec) : List ℚ := scene.mobjects.map mobjSize

/-- Substring test: does `pat` occur contiguously in the text? -/
def occursIn (pat : List Char) : List Char → Bool
  | [] => pat.isPrefixOf []
  | c :: rest => pat.isPrefixOf (c :: rest) || occursIn pat rest

/-! ## Concrete instances used by the claims -/

/-- The end-to-end demo storyboard of the spec (claim C4): one scene, one
circle without kwargs, one fade-in targeting the kind "Circle". -/
def demoStoryboard : Storyboard :=
  { title := "Demo",
    scenes := [{ narration := "x",
                 mobjects := [{ type := "Circle", kwargs := [] }],
                 animations := [{ type := some "FadeIn",
                                  target := .str "Circle" }] }] }

/-- A mobject whose kind is outside any reasonable vocabulary. -/
def blobMobj : Mobj := { type := "Blob", kwargs := [] }

/-- A scene declaring the out-of-vocabulary mobject. -/
def blobScene : SceneSpec :=
  { narration := "n", mobjects := [blobMobj], animations := [] }

/-- A storyboard referencing a kind absent from the vocabulary. -/
def blobStoryboard : Storyboard := { title := "T", scenes := [blobScene] }

/-- A concrete vocabulary table (object kinds) not containing "Blob". -/
def smallVocab : List String := ["Circle", "Square", "Dot", "Line"]

/-- A scene with two circles of radius 1 and 100: its single layout row is
closed by width overflow and scaled by 2/17. -/
def wideScene : SceneSpec :=
  { narration := "wide",
    mobjects := [{ type := "Circle", kwargs := [("radius", .int 1)] },
                 { type := "Circle", kwargs := [("radius", .int 100)] }],
    animations := [] }

/-- Modelled from the claim's words (C3): the sum of a row's post-scale
dominant sizes plus the fixed 0.5 buffer between adjacent objects — the code
scales the objects but places them with unscaled buffers. -/
def specRowSpan (row : List ℚ) (scale : ℚ) : ℚ :=
  scale * row.sum + ((row.length : ℚ) - 1) * (1/2)

/-! ## Theorems -/

/-- Helper for C2: within one `debug_code` call, the loop performs at most
`n` execution cycles. -/
theorem debug_loop_exec_le (rf : String → List String → Option String)
    (ex : String → Option String) :
    ∀ (n : ℕ) (c : String) (h : List String),
      (debug_loop rf ex n c h).2.2 ≤ n := by
  intro n
  induction n with
  | zero => intro c h; simp [debug_loop]
  | succ k ih =>
    intro c h
    simp only [debug_loop]
    cases hrf : rf c h with
    | none => simp [hrf]
    | some newCode =>
      cases hex : ex newCode with
      | none => simp [hrf, hex]
      | some diag =>
        simp only [hrf, hex]
        simpa using Nat.succ_le_succ (ih newCode (h ++ [diag]))

/-- Claim C2 (amended): `debug_code` performs at most `max_retries` execution
cycles; with an execute that fails on every call and `max_retries = 3` it
exhausts the budget, but the final history holds the seeded diagnostic plus
the 3 recorded ones — 4 entries, not 3 — and the raised `RuntimeError`
carries no history. -/
theorem c2_repair_budget :
    (∀ rf ex c e n, (debug_code rf ex c e n).2.2 ≤ n) ∧
      debug_code (fun _ _ => some "fix") (fun _ => some "Traceback") "c" "e0" 3 =
        (.exhausted, ["e0", "Traceback", "Traceback", "Traceback"], 3) :=
  ⟨fun rf ex c e n => debug_loop_exec_le rf ex n c [e], rfl⟩

/-- Claim C2 counterexample: with an always-failing execute and
`max_attempts = 3`, the exhausted session's recorded diagnostics number 4
(the seeded one plus one per attempt), not exactly 3 as claimed. -/
theorem c2_counterexample :
    (debug_code (fun _ _ => some "fix") (fun _ => some "Traceback") "c" "e0" 3).2.1.length = 4 ∧
      (debug_code (fun _ _ => some "fix") (fun _ => some "Traceback") "c" "e0" 3).1 =
        DebugOutcome.exhausted ∧
      ¬((debug_code (fun _ _ => some "fix") (fun _ => some "Traceback") "c" "e0" 3).2.1.length = 3) :=
  ⟨rfl, rfl, by decide⟩

/-- Helper: a mobject with no kwargs has dominant size 1 (the default of
`kwargs.get("radius", kwargs.get("side_length", 1))`). -/
theorem mobjSize_no_kwargs (ty : String) :
    mobjSize { type := ty, kwargs := [] } = 1 := by
  simp [mobjSize, sanitize_mobject_kwargs, pyNum, List.lookup]

/-- Helper: one step of the mobject loop when the row does not close. -/
theorem mobjStep_no_close (sceneIdx : ℕ) (st : RowState) (k : ℕ) (m : Mobj)
    (hcount : st.row_count + 1 < MAX_ROW_OBJECTS)
    (hwidth : st.row_width + mobjSize m + 1/2 ≤ ROW_WIDTH_LIMIT) :
    mobjStep sceneIdx st (k, m) =
      { lines := st.lines ++ [mobjLine sceneIdx k m],
        row_objs := st.row_objs ++ [mobjName sceneIdx k m],
        row_count := st.row_count + 1,
        row_width := st.row_width + mobjSize m + 1/2,
        mobjects_map := dictSet st.mobjects_map (mobjName sceneIdx k m) m.type } := by
  simp only [mobjStep]
  rw [if_neg]
  push_neg
  exact ⟨by omega, hwidth⟩

set_option maxRecDepth 4000 in
/-- Helper: full evaluation of the compiler on the demo storyboard. -/
theorem demo_compile_eval :
    storyboard_to_manim_code demoStoryboard =
      "from manim import *\n\nclass Demo(ThreeDScene):\n    def construct(self):\n        # Scene 1: x...\n        circle1_1 = Circle()\n        circle1_1.to_edge(UP)\n        self.play(FadeIn(circle1_1))\n        self.wait(1)\n" := by
  have hstep := mobjStep_no_close 1
    { lines := [], row_objs := [], row_count := 0, row_width := 0,
      mobjects_map := [] } 1 { type := "Circle", kwargs := [] }
    (by norm_num [MAX_ROW_OBJECTS])
    (by rw [mobjSize_no_kwargs]; norm_num [ROW_WIDTH_LIMIT])
  simp only [storyboard_to_manim_code, demoStoryboard, List.enumFrom, List.map,
    List.flatten, sceneLines, List.foldl, hstep]
  decide

/-- Claim C4 counterexample: the compiled demo source never mentions the name
`circle_0_0` claimed by the spec. -/
theorem c4_counterexample :
    occursIn "circle_0_0".data (storyboard_to_manim_code demoStoryboard).data
      = false := by
  rw [demo_compile_eval]
  decide

/-- Claim C4 (amended): the demo storyboard compiles to source constructing
exactly one circle bound to the synthesized name `circle1_1` (the kind
lower-cased, the 1-based scene index, an underscore, the 1-based declaration
index) and one fade-in targeting it. -/
theorem c4_demo_output :
    storyboard_to_manim_code demoStoryboard =
      "from manim import *\n\nclass Demo(ThreeDScene):\n    def construct(self):\n        # Scene 1: x...\n        circle1_1 = Circle()\n        circle1_1.to_edge(UP)\n        self.play(FadeIn(circle1_1))\n        self.wait(1)\n" :=
  demo_compile_eval

/-- Claim C7 counterexample: with two declared circles, a sequence target
holding the single element "Circle" resolves to BOTH objects — the inner
resolution loop has no break — so the emitted composite names two objects
where the claim promises only the first match. -/
theorem c7_counterexample :
    animLine [("circle1_1", "Circle"), ("circle1_2", "Circle")]
      { type := some "FadeIn", target := .list ["Circle"] } =
      ["        self.play(FadeIn(circle1_1, circle1_2))"] := by
  decide

/-- Claim C7 (amended): each element of a sequence target resolves to ALL
objects (in declaration order) whose kind or name equals it, and one
composite operation is emitted over the concatenation of those resolutions in
element order; in particular every matching object appears, not only the
first. -/
theorem c7_list_target_resolves_all (m : List (String × String))
    (ty : Option String) (ts : List String) (p : String × String) (t : String)
    (hp : p ∈ m) (ht : t ∈ ts) (hmatch : p.2 = t ∨ p.1 = t) :
    p.1 ∈ collectTargets m ts ∧
      animLine m { type := ty, target := .list ts } =
        ["        self.play(" ++ animTypeStr ty ++ "("
          ++ pyJoin ", " (collectTargets m ts) ++ "))"] := by
  have hmem : p.1 ∈ collectTargets m ts := by
    induction ts with
    | nil => cases ht
    | cons a as ih =>
      rcases List.mem_cons.mp ht with h | h
      · subst h
        refine List.mem_append.mpr (Or.inl ?_)
        refine List.mem_map.mpr ⟨p, List.mem_filter.mpr ⟨hp, ?_⟩, rfl⟩
        rcases hmatch with h | h <;> simp [h]
      · exact List.mem_append.mpr (Or.inr (ih h))
  refine ⟨hmem, ?_⟩
  have hts : ts ≠ [] := by rintro rfl; cases ht
  have hne : collectTargets m ts ≠ [] := by
    intro h0; rw [h0] at hmem; cases hmem
  simp [animLine, targetFalsy, List.isEmpty_eq_false, hts, hne]

/-- Claim C7 witness: the amended resolution rule at the two-circle scene. -/
theorem c7_witness :
    "circle1_1" ∈ collectTargets [("circle1_1", "Circle"), ("circle1_2", "Circle")] ["Circle"] ∧
      animLine [("circle1_1", "Circle"), ("circle1_2", "Circle")]
        { type := some "Write", target := .list ["Circle"] } =
        ["        self.play(" ++ animTypeStr (some "Write") ++ "("
          ++ pyJoin ", "
            (collectTargets [("circle1_1", "Circle"), ("circle1_2", "Circle")] ["Circle"]) ++ "))"] :=
  c7_list_target_resolves_all _ _ _ ("circle1_1", "Circle") "Circle"
    (by decide) (by decide) (Or.inl rfl)

/-- Claim C8 (amended): when the structured response fails to parse, the
repair loop aborts at once by re-raising the decode error: nothing is
appended to the history, no execution happens, and no further attempt is
made. -/
theorem c8_parse_failure_aborts (rf : String → List String → Option String)
    (ex : String → Option String) (c : String) (h : List String) (n : ℕ)
    (hrf : rf c h = none) :
    debug_loop rf ex (n + 1) c h = (.parseError, h, 0) := by
  simp [debug_loop, hrf]

/-- Claim C8 witness: the abort behaviour at a concrete unparseable
response. -/
theorem c8_witness :
    debug_loop (fun _ _ => none) (fun _ => some "boom") 3 "c" ["e0"] =
      (.parseError, ["e0"], 0) :=
  c8_parse_failure_aborts _ _ _ _ 2 rfl

/-- Claim C8 counterexample: a parse failure during repair leaves the history
at its seeded single entry and ends the session with the re-raised decode
error — the budget slot is not consumed and the loop does not proceed. -/
theorem c8_counterexample :
    debug_code (fun _ _ => none) (fun _ => some "boom") "c" "e0" 3 =
      (DebugOutcome.parseError, ["e0"], 0) := rfl

/-- Claim C10: an operation whose target is missing, empty, or otherwise
falsy is skipped entirely — no statement is emitted for it (and the compiler,
a total function, raises nothing). -/
theorem c10_falsy_target_skipped (m : List (String × String)) (a : AnimSpec)
    (h : targetFalsy a.target = true) : animLine m a = [] := by
  simp [animLine, h]

/-- Claim C10 witness: a missing target is skipped. -/
theorem c10_witness :
    targetFalsy AnimTarget.none = true ∧
      animLine [("circle1_1", "Circle")]
        { type := some "FadeIn", target := AnimTarget.none } = [] :=
  ⟨rfl, c10_falsy_target_skipped _ _ rfl⟩

/-- Helper for C6: after the balancing step, closing braces are at least as
many as opening ones, and likewise for brackets. -/
theorem balanceStep_counts (l : List Char) :
    (balanceStep l).count '\x7b' ≤ (balanceStep l).count '\x7d' ∧
      (balanceStep l).count '\x5b' ≤ (balanceStep l).count '\x5d' := by
  simp only [balanceStep]
  split <;> split <;>
    simp_all [List.count_append, List.count_replicate] <;> omega

/-- Claim C6 (amended): the sanitizer's output always has at least as many
closing braces as opening braces and at least as many closing brackets as
opening brackets; the counts need not be equal, because surplus closers are
never removed. -/
theorem c6_output_balance (x : String) :
    (fix_gemini_json x).data.count '\x7b' ≤ (fix_gemini_json x).data.count '\x7d' ∧
      (fix_gemini_json x).data.count '\x5b' ≤ (fix_gemini_json x).data.count '\x5d' := by
  simpa [fix_gemini_json] using
    balanceStep_counts (stripCtrl (commaSub (tupleSub (fenceStep x.data))))

/-- Claim C6 counterexample: on input consisting of one closing brace the
sanitizer appends nothing, so the output has unequal brace counts. -/
theorem c6_counterexample :
    ¬((fix_gemini_json "\x7d").data.count '\x7b' =
      (fix_gemini_json "\x7d").data.count '\x7d') := by decide

/-- Helper for C9: looking up a different key is unaffected by replacing the
value bound to `k` in place. -/
theorem lookup_map_set_ne (k k' : String) (v : JsonVal) (h : k' ≠ k) :
    ∀ m : List (String × JsonVal),
      (m.map (fun p => if p.1 == k then (p.1, v) else p)).lookup k' = m.lookup k' := by
  intro m
  induction m with
  | nil => rfl
  | cons a t ih =>
    obtain ⟨a1, a2⟩ := a
    simp only [List.map_cons]
    cases hka : (a1 == k) with
    | true =>
      have ha : a1 = k := eq_of_beq hka
      subst ha
      simp only [List.lookup, hka, if_true, beq_eq_false_iff_ne.mpr h]
      simpa using ih
    | false =>
      simp only [hka, Bool.false_eq_true, if_false, List.lookup]
      cases hk' : (k' == a1) <;> [skip; skip] <;> first
        | (simp [hk']; simpa using ih)
        | simp [hk', ih]

/-- Helper for C9: looking up a different key is unaffected by appending a
binding for `k`. -/
theorem lookup_append_single_ne (k k' : String) (v : JsonVal) (h : k' ≠ k) :
    ∀ m : List (String × JsonVal), (m ++ [(k, v)]).lookup k' = m.lookup k' := by
  intro m
  induction m with
  | nil => simp [List.lookup, beq_eq_false_iff_ne.mpr h]
  | cons a t ih =>
    obtain ⟨a1, a2⟩ := a
    simp only [List.cons_append, List.lookup]
    cases hk' : (k' == a1) <;> simp [ih]

/-- Helper for C9: `dictSetJson` leaves every other key's binding
unchanged. -/
theorem dictSetJson_lookup_ne (m : List (String × JsonVal)) (k k' : String)
    (v : JsonVal) (h : k' ≠ k) :
    (dictSetJson m k v).lookup k' = m.lookup k' := by
  unfold dictSetJson
  split
  · exact lookup_map_set_ne k k' v h m
  · exact lookup_append_single_ne k k' v h m

/-- Helper for C9: after `dictSetJson m k v`, key `k` is bound to `v`. -/
theorem dictSetJson_lookup_self (m : List (String × JsonVal)) (k : String)
    (v : JsonVal) : (dictSetJson m k v).lookup k = some v := by
  unfold dictSetJson
  split
  case isTrue hany =>
    induction m with
    | nil => simp at hany
    | cons a t ih =>
      obtain ⟨a1, a2⟩ := a
      simp only [List.map_cons]
      cases hka : (a1 == k) with
      | true =>
        have hk : (k == a1) = true := by
          have := eq_of_beq hka
          simp [this]
        simp [List.lookup, hk]
      | false =>
        have hk : (k == a1) = false := by
          refine beq_eq_false_iff_ne.mpr fun hh => ?_
          exact (beq_eq_false_iff_ne.mp hka) hh.symm
        simp only [Bool.false_eq_true, if_false, List.lookup, hk]
        simp only [List.any_cons, hka, Bool.false_or] at hany
        exact ih hany
  case isFalse hany =>
    induction m with
    | nil => simp [List.lookup]
    | cons a t ih =>
      obtain ⟨a1, a2⟩ := a
      cases hka : (a1 == k) with
      | true =>
        exact absurd
          (show (((a1, a2) :: t).any fun p => p.1 == k) = true by simp [hka]) hany
      | false =>
        have hk : (k == a1) = false := by
          refine beq_eq_false_iff_ne.mpr fun hh => ?_
          exact (beq_eq_false_iff_ne.mp hka) hh.symm
        simp only [List.cons_append, List.lookup, hk]
        exact ih (fun hh => hany (by simp only [List.any_cons, hka, Bool.false_or]; exact hh))

/-- Helper for C9: scene patching leaves every key other than `mobjects` and
`animations` unchanged. -/
theorem patchScene_lookup_ne (f : List (String × JsonVal)) (k : String)
    (hm : k ≠ "mobjects") (ha : k ≠ "animations") :
    (patchScene f).lookup k = f.lookup k := by
  have step2 : ∀ f1 : List (String × JsonVal), f1.lookup k = f.lookup k →
      (match f1.lookup "animations" with
        | some v => if isJsonArr v then f1 else dictSetJson f1 "animations" (.arr [])
        | none => dictSetJson f1 "animations" (.arr [])).lookup k = f.lookup k := by
    intro f1 h1
    split
    · split
      · exact h1
      · rw [dictSetJson_lookup_ne _ _ _ _ ha]; exact h1
    · rw [dictSetJson_lookup_ne _ _ _ _ ha]; exact h1
  unfold patchScene
  split
  · split
    · exact step2 f rfl
    · exact step2 _ (dictSetJson_lookup_ne _ _ _ _ hm)
  · exact step2 _ (dictSetJson_lookup_ne _ _ _ _ hm)

/-- Helper for C9: after scene patching, `mobjects` and `animations` are both
bound to lists (the declared one when it was a list, the empty one
otherwise). -/
theorem patchScene_lookup_lists (f : List (String × JsonVal)) :
    (∃ lm, (patchScene f).lookup "mobjects" = some (.arr lm)) ∧
      (∃ la, (patchScene f).lookup "animations" = some (.arr la)) := by
  have hne : ("mobjects" : String) ≠ "animations" := by decide
  have step2 : ∀ f1 : List (String × JsonVal),
      (∃ lm, f1.lookup "mobjects" = some (.arr lm)) →
      (∃ lm, (match f1.lookup "animations" with
          | some v => if isJsonArr v then f1 else dictSetJson f1 "animations" (.arr [])
          | none => dictSetJson f1 "animations" (.arr [])).lookup "mobjects" = some (.arr lm)) ∧
        (∃ la, (match f1.lookup "animations" with
          | some v => if isJsonArr v then f1 else dictSetJson f1 "animations" (.arr [])
          | none => dictSetJson f1 "animations" (.arr [])).lookup "animations" = some (.arr la)) := by
    intro f1 hmob
    split
    case h_1 v hv =>
      by_cases harr : isJsonArr v = true
      · rw [if_pos harr]
        refine ⟨hmob, ?_⟩
        cases v <;> simp [isJsonArr] at harr
        exact ⟨_, hv⟩
      · rw [if_neg harr]
        refine ⟨?_, ⟨[], dictSetJson_lookup_self _ _ _⟩⟩
        obtain ⟨lm, hlm⟩ := hmob
        exact ⟨lm, by rw [dictSetJson_lookup_ne _ _ _ _ hne]; exact hlm⟩
    case h_2 hv =>
      refine ⟨?_, ⟨[], dictSetJson_lookup_self _ _ _⟩⟩
      obtain ⟨lm, hlm⟩ := hmob
      exact ⟨lm, by rw [dictSetJson_lookup_ne _ _ _ _ hne]; exact hlm⟩
  unfold patchScene
  split
  case h_1 v hv =>
    by_cases harr : isJsonArr v = true
    · rw [if_pos harr]
      refine step2 f ?_
      cases v <;> simp [isJsonArr] at harr
      exact ⟨_, hv⟩
    · rw [if_neg harr]
      exact step2 _ ⟨[], dictSetJson_lookup_self _ _ _⟩
  case h_2 hv =>
    exact step2 _ ⟨[], dictSetJson_lookup_self _ _ _⟩

/-- Helper for C9: on a list of scene dicts the loop patches every scene and
succeeds. -/
theorem patchScenes_ok (l : List JsonVal) (h : l.all isJsonObj = true) :
    patchScenes l = .ok (l.map patchSceneVal) := by
  induction l with
  | nil => rfl
  | cons a t ih =>
    simp only [List.all_cons, Bool.and_eq_true] at h
    obtain ⟨h1, h2⟩ := h
    cases a <;> simp only [isJsonObj, Bool.false_eq_true] at h1
    case obj fields =>
      rw [List.map_cons, patchScenes, ih h2]
      rfl

/-- Claim C9 counterexample: on the empty mapping — where the `scenes` field
is missing, hence not a sequence — validation succeeds and returns the input
unchanged, instead of failing with a `SchemaError` as claimed (no such error
class exists in the source). -/
theorem c9_counterexample :
    validate_storyboard (JsonVal.obj []) = .ok (JsonVal.obj []) := rfl

/-- Claim C9 (amended): the validator raises only generic runtime errors
(`AttributeError` on a non-mapping, `TypeError` on unusable scenes) and never
a schema-specific one; a missing `scenes` field defaults to the empty
sequence, so validation succeeds with the storyboard unchanged; when `scenes`
is a sequence of mappings, each scene's missing-or-non-sequence `mobjects`
and `animations` are replaced by empty sequences, every other scene field is
untouched, and validation succeeds. -/
theorem c9_validator_behaviour :
    (∀ j : JsonVal, isJsonObj j = false →
      validate_storyboard j = .error .attributeError) ∧
    (∀ fields : List (String × JsonVal), fields.lookup "scenes" = none →
      validate_storyboard (.obj fields) = .ok (.obj fields)) ∧
    (∀ (fields : List (String × JsonVal)) (scenes : List JsonVal),
      fields.lookup "scenes" = some (.arr scenes) →
      scenes.all isJsonObj = true →
      validate_storyboard (.obj fields) =
        .ok (.obj (fields.map (fun p =>
          if p.1 == "scenes" then (p.1, JsonVal.arr (scenes.map patchSceneVal))
          else p)))) ∧
    (∀ (f : List (String × JsonVal)) (k : String),
      k ≠ "mobjects" → k ≠ "animations" →
      (patchScene f).lookup k = f.lookup k) ∧
    (∀ f : List (String × JsonVal),
      (∃ lm, (patchScene f).lookup "mobjects" = some (.arr lm)) ∧
        (∃ la, (patchScene f).lookup "animations" = some (.arr la))) := by
  refine ⟨?_, ?_, ?_, patchScene_lookup_ne, patchScene_lookup_lists⟩
  · intro j hj
    cases j <;> simp [isJsonObj] at hj ⊢ <;> rfl
  · intro fields hf
    simp only [validate_storyboard, hf]
  · intro fields scenes hf hall
    simp only [validate_storyboard, hf, patchScenes_ok scenes hall]

/-- Claim C9 witness: a storyboard whose single scene is the empty mapping is
accepted, with `mobjects` and `animations` defaulted to empty sequences. -/
theorem c9_witness :
    validate_storyboard (.obj [("scenes", .arr [.obj []])]) =
      .ok (.obj [("scenes", .arr [.obj [("mobjects", .arr []),
        ("animations", .arr [])]])]) := by
  have h := (c9_validator_behaviour).2.2.1 [("scenes", .arr [.obj []])]
    [.obj []] rfl rfl
  exact h

/-- Helper for C3: the accumulated width of the empty row. -/
theorem rowWidth_nil : rowWidth [] = 0 := rfl

/-- Helper for C3: widths are sums of nonneg terms when sizes are nonneg. -/
theorem rowWidth_nonneg (l : List ℚ) (h : ∀ s ∈ l, 0 ≤ s) : 0 ≤ rowWidth l := by
  apply List.sum_nonneg
  intro x hx
  rcases List.mem_map.mp hx with ⟨s, hs, rfl⟩
  have := h s hs
  linarith

/-- Helper for C3: a nonempty row of nonneg sizes has positive accumulated
width (each object contributes its 0.5 buffer). -/
theorem rowWidth_pos (l : List ℚ) (h : ∀ s ∈ l, 0 ≤ s) (hne : l ≠ []) :
    0 < rowWidth l := by
  cases l with
  | nil => exact absurd rfl hne
  | cons a t =>
    have ha := h a (List.mem_cons_self a t)
    have ht : 0 ≤ rowWidth t :=
      rowWidth_nonneg t (fun s hs => h s (List.mem_cons_of_mem a hs))
    simp only [rowWidth, List.map_cons, List.sum_cons] at *
    linarith

/-- Helper for C3: every row the layout produces, scaled by its factor, fits
the budget — closed rows because the factor is at most
`ROW_WIDTH_LIMIT / width`, trailing rows because they never exceeded the
budget in the first place. -/
theorem layoutRows_budget :
    ∀ (sizes : List ℚ), (∀ s ∈ sizes, 0 ≤ s) →
    ∀ (cur : List ℚ), (∀ s ∈ cur, 0 ≤ s) → rowWidth cur ≤ ROW_WIDTH_LIMIT →
    ∀ row scale, (row, scale) ∈ layoutRows sizes cur →
      scale * rowWidth row ≤ ROW_WIDTH_LIMIT := by
  intro sizes
  induction sizes with
  | nil =>
    intro _ cur hcur hwid row scale hmem
    simp only [layoutRows] at hmem
    split at hmem
    · cases hmem
    · have h := List.mem_singleton.mp hmem
      obtain ⟨h1, h2⟩ := Prod.mk.injEq .. ▸ h
      subst h1; subst h2
      rw [one_mul]
      exact hwid
  | cons s rest ih =>
    intro hs cur hcur hwid row scale hmem
    have hs0 : 0 ≤ s := hs s (List.mem_cons_self s rest)
    have hrest : ∀ x ∈ rest, 0 ≤ x := fun x hx => hs x (List.mem_cons_of_mem s hx)
    have hcur2 : ∀ x ∈ cur ++ [s], 0 ≤ x := by
      intro x hx
      rcases List.mem_append.mp hx with h | h
      · exact hcur x h
      · rw [List.mem_singleton.mp h]; exact hs0
    simp only [layoutRows] at hmem
    split at hmem
    · rcases List.mem_cons.mp hmem with h | h
      · obtain ⟨h1, h2⟩ := Prod.mk.injEq .. ▸ h
        subst h1; subst h2
        have hw : 0 < rowWidth (cur ++ [s]) :=
          rowWidth_pos _ hcur2 (by simp)
        calc min 1 (ROW_WIDTH_LIMIT / rowWidth (cur ++ [s])) * rowWidth (cur ++ [s])
            ≤ ROW_WIDTH_LIMIT / rowWidth (cur ++ [s]) * rowWidth (cur ++ [s]) :=
              mul_le_mul_of_nonneg_right (min_le_right _ _) (le_of_lt hw)
          _ = ROW_WIDTH_LIMIT := div_mul_cancel₀ _ (ne_of_gt hw)
      · exact ih hrest [] (by simp) (by rw [rowWidth_nil]; norm_num [ROW_WIDTH_LIMIT])
          row scale h
    · rename_i hcond
      push_neg at hcond
      exact ih hrest (cur ++ [s]) hcur2 hcond.2 row scale hmem

/-- Claim C3 (amended): for every scene whose declared dominant sizes are
nonnegative, each row produced by the layout satisfies
`scale * accumulated_width ≤ budget` — the scaled sizes plus the SCALED
buffers fit the budget (with unscaled buffers the bound can fail, see the
counterexample); and the 6-objects-of-size-3 scenario yields two rows, the
first (4 objects) scaled by 6/7, the second (2 objects) unscaled. -/
theorem c3_rows_within_budget (sizes : List ℚ) (h : ∀ s ∈ sizes, 0 ≤ s) :
    (∀ row scale, (row, scale) ∈ layoutRows sizes [] →
      scale * rowWidth row ≤ ROW_WIDTH_LIMIT) ∧
      layoutRows [3, 3, 3, 3, 3, 3] [] = [([3, 3, 3, 3], 6/7), ([3, 3], 1)] := by
  constructor
  · intro row scale hmem
    exact layoutRows_budget sizes h [] (by simp)
      (by rw [rowWidth_nil]; norm_num [ROW_WIDTH_LIMIT]) row scale hmem
  · norm_num [layoutRows, rowWidth, MAX_ROW_OBJECTS, ROW_WIDTH_LIMIT, min_def]

/-- Claim C3 witness: the first (scaled) row of the scenario fits the
budget. -/
theorem c3_witness :
    (6/7 : ℚ) * rowWidth [3, 3, 3, 3] ≤ ROW_WIDTH_LIMIT := by
  have h := c3_rows_within_budget [3, 3, 3, 3, 3, 3]
    (by intro s hs; fin_cases hs <;> norm_num)
  exact h.1 [3, 3, 3, 3] (6/7) (by rw [h.2]; exact List.mem_cons_self _ _)

/-- Claim C3 counterexample: a scene declaring circles of radius 1 and 100
compiles to a single row scaled by 2/17, whose post-scale sizes plus the
fixed (unscaled) 0.5 inter-object buffer span 202/17 + 1/2 > 12 — the claim's
budget inequality fails because the code scales the objects but not the
buffers. -/
theorem c3_counterexample :
    sceneSizes wideScene = [1, 100] ∧
      layoutRows (sceneSizes wideScene) [] = [([1, 100], 2/17)] ∧
      ROW_WIDTH_LIMIT < specRowSpan [1, 100] (2/17) := by
  have hsz : sceneSizes wideScene = [1, 100] := by
    simp [sceneSizes, wideScene, mobjSize, sanitize_mobject_kwargs, allowed_keys,
      pyNum, List.lookup]
  refine ⟨hsz, ?_, ?_⟩
  · rw [hsz]
    norm_num [layoutRows, rowWidth, MAX_ROW_OBJECTS, ROW_WIDTH_LIMIT, min_def]
  · norm_num [specRowSpan, ROW_WIDTH_LIMIT]

/-- Bridge between the boolean prefix test and the prefix relation, under a
name convenient for this file. -/
theorem isPrefixOf_eq_true {l1 l2 : List Char} :
    l1.isPrefixOf l2 = true ↔ l1 <+: l2 :=
  List.isPrefixOf_iff_prefix

/-- Helper for C1: a pattern that is an infix of the text occurs in it. -/
theorem occursIn_of_between (pat : List Char) :
    ∀ l : List Char, pat <:+: l → occursIn pat l = true := by
  intro l
  induction l with
  | nil =>
    intro h
    rw [List.infix_nil] at h
    subst h
    rfl
  | cons c rest ih =>
    intro h
    rcases List.infix_cons_iff.mp h with h | h
    · simp [occursIn, isPrefixOf_eq_true.mpr h]
    · simp [occursIn, ih h]

/-- Helper for C1: every line of the joined list is an infix of the joined
text. -/
theorem mem_pyJoin_between (sep s : String) :
    ∀ lines : List String, s ∈ lines → s.data <:+: (pyJoin sep lines).data := by
  intro lines
  induction lines with
  | nil => intro h; cases h
  | cons x xs ih =>
    intro hmem
    cases xs with
    | nil =>
      rw [List.mem_singleton.mp hmem]
      exact List.infix_refl _
    | cons y ys =>
      rcases List.mem_cons.mp hmem with h | h
      · subst h
        show s.data <:+: (s ++ sep ++ pyJoin sep (y :: ys)).data
        simp only [String.data_append]
        exact ⟨[], sep.data ++ (pyJoin sep (y :: ys)).data, by simp⟩
      · refine (ih h).trans ?_
        show (pyJoin sep (y :: ys)).data <:+: (x ++ sep ++ pyJoin sep (y :: ys)).data
        simp only [String.data_append]
        exact ⟨x.data ++ sep.data, [], by simp⟩

/-- Helper for C1: the construction statement mentions the declared kind,
immediately followed by the opening parenthesis of its constructor call. -/
theorem mobjLine_contains_kind (i k : ℕ) (m : Mobj) :
    (m.type ++ "(").data <:+: (mobjLine i k m).data := by
  simp only [mobjLine]
  refine ⟨("        " ++ mobjName i k m ++ " = ").data,
    (pyJoin ", " ((sanitize_mobject_kwargs m.kwargs).map
      (fun p => p.1 ++ "=" ++ pyRepr p.2)) ++ ")").data, ?_⟩
  simp [String.data_append]

/-- Helper for C1: one loop step only appends to the emitted lines. -/
theorem mobjStep_lines_grow (i : ℕ) (st : RowState) (x : ℕ × Mobj) :
    st.lines <+: (mobjStep i st x).lines := by
  simp only [mobjStep]
  split
  · rw [List.append_assoc, List.append_assoc]
    exact List.prefix_append _ _
  · exact List.prefix_append _ _

/-- Helper for C1: the whole loop only appends to the emitted lines. -/
theorem foldl_lines_grow (i : ℕ) :
    ∀ (l : List (ℕ × Mobj)) (st : RowState),
      st.lines <+: (l.foldl (mobjStep i) st).lines := by
  intro l
  induction l with
  | nil => intro st; exact List.prefix_refl _
  | cons x xs ih =>
    intro st
    rw [List.foldl_cons]
    exact (mobjStep_lines_grow i st x).trans (ih (mobjStep i st x))

/-- Helper for C1: the loop emits the construction statement of every
enumerated mobject. -/
theorem mobjLine_mem_foldl (i : ℕ) :
    ∀ (l : List (ℕ × Mobj)) (st : RowState) (x : ℕ × Mobj), x ∈ l →
      mobjLine i x.1 x.2 ∈ (l.foldl (mobjStep i) st).lines := by
  intro l
  induction l with
  | nil => intro st x h; cases h
  | cons y ys ih =>
    intro st x h
    rw [List.foldl_cons]
    rcases List.mem_cons.mp h with h | h
    · subst h
      have h1 : mobjLine i x.1 x.2 ∈ (mobjStep i st x).lines := by
        simp only [mobjStep]
        split <;> simp
      exact (foldl_lines_grow i ys (mobjStep i st x)).subset h1
    · exact ih (mobjStep i st y) x h

/-- Helper for C1: an element of a list appears in its enumeration at some
index. -/
theorem mem_enumFrom_of_mem {α : Type} (a : α) :
    ∀ (l : List α) (n : ℕ), a ∈ l → ∃ k, (k, a) ∈ List.enumFrom n l := by
  intro l
  induction l with
  | nil => intro n h; cases h
  | cons b t ih =>
    intro n h
    rcases List.mem_cons.mp h with h | h
    · subst h
      exact ⟨n, by simp [List.enumFrom]⟩
    · obtain ⟨k, hk⟩ := ih (n + 1) h
      exact ⟨k, by simp [List.enumFrom, hk]⟩

/-- Helper for C1: every declared mobject's construction statement is among
the scene's emitted lines. -/
theorem mobjLine_mem_sceneLines (i : ℕ) (sc : SceneSpec) (m : Mobj)
    (hm : m ∈ sc.mobjects) :
    ∃ k, mobjLine i k m ∈ sceneLines i sc := by
  obtain ⟨k, hk⟩ := mem_enumFrom_of_mem m sc.mobjects 1 hm
  refine ⟨k, ?_⟩
  have h1 : mobjLine i k m ∈ ((List.enumFrom 1 sc.mobjects).foldl (mobjStep i)
      { lines := [], row_objs := [], row_count := 0, row_width := 0,
        mobjects_map := [] }).lines :=
    mobjLine_mem_foldl i _ _ (k, m) hk
  simp only [sceneLines]
  exact List.mem_append_left _ (List.mem_append_left _
    (List.mem_cons_of_mem _ (List.mem_append_left _ h1)))

/-- Claim C1 (amended): the compiler consults no vocabulary table and raises
no `UnknownSymbolError` (it is a total function of the storyboard alone);
every declared object kind — inside or outside any vocabulary — is emitted
verbatim into the source text as a constructor call. -/
theorem c1_no_vocabulary_check (sb : Storyboard) (sc : SceneSpec) (m : Mobj)
    (hsc : sc ∈ sb.scenes) (hm : m ∈ sc.mobjects) :
    occursIn (m.type ++ "(").data (storyboard_to_manim_code sb).data = true := by
  obtain ⟨i, hi⟩ := mem_enumFrom_of_mem sc sb.scenes 1 hsc
  obtain ⟨k, hk⟩ := mobjLine_mem_sceneLines i sc m hm
  have hline : mobjLine i k m ∈
      (["from manim import *", "",
        "class " ++ removeSpaces sb.title ++ "(ThreeDScene):",
        "    def construct(self):"]
        ++ ((List.enumFrom 1 sb.scenes).map (fun p => sceneLines p.1 p.2)).flatten) := by
    refine List.mem_append_right _ ?_
    exact List.mem_flatten.mpr ⟨sceneLines i sc, List.mem_map.mpr ⟨(i, sc), hi, rfl⟩, hk⟩
  have hwithin : (mobjLine i k m).data <:+: (storyboard_to_manim_code sb).data := by
    simp only [storyboard_to_manim_code]
    exact mem_pyJoin_between "\n" _ _ hline
  exact occursIn_of_between _ _ ((mobjLine_contains_kind i k m).trans hwithin)

/-- Claim C1 witness: the amended statement at the out-of-vocabulary
storyboard. -/
theorem c1_witness :
    occursIn (blobMobj.type ++ "(").data
      (storyboard_to_manim_code blobStoryboard).data = true :=
  c1_no_vocabulary_check blobStoryboard blobScene blobMobj (by decide) (by decide)

set_option maxRecDepth 4000 in
/-- Helper for C1: full evaluation of the compiler on the out-of-vocabulary
storyboard. -/
theorem blob_compile_eval :
    storyboard_to_manim_code blobStoryboard =
      "from manim import *\n\nclass T(ThreeDScene):\n    def construct(self):\n        # Scene 1: n...\n        blob1_1 = Blob()\n        blob1_1.to_edge(UP)\n        self.wait(1)\n" := by
  have hstep := mobjStep_no_close 1
    { lines := [], row_objs := [], row_count := 0, row_width := 0,
      mobjects_map := [] } 1 { type := "Blob", kwargs := [] }
    (by norm_num [MAX_ROW_OBJECTS])
    (by rw [mobjSize_no_kwargs]; norm_num [ROW_WIDTH_LIMIT])
  simp only [storyboard_to_manim_code, blobStoryboard, blobScene, blobMobj,
    List.enumFrom, List.map, List.flatten, sceneLines, List.foldl, hstep]
  decide

/-- Claim C1 counterexample: the kind "Blob" is absent from the vocabulary,
yet `compile` succeeds (it raises nothing) and the emitted source text
contains the out-of-vocabulary constructor call `Blob(` — both halves of the
claim fail. -/
theorem c1_counterexample :
    "Blob" ∉ smallVocab ∧
      occursIn "Blob(".data (storyboard_to_manim_code blobStoryboard).data = true := by
  constructor
  · decide
  · rw [blob_compile_eval]
    decide

/-- Helper for C5: the tuple-rewriting pass needs a comma to fire, so it
fixes comma-free text. -/
theorem tupleSubF_no_comma : ∀ (fuel : ℕ) (l : List Char), ',' ∉ l →
    tupleSubF fuel l = l := by
  intro fuel
  induction fuel with
  | zero => intro l _; rfl
  | succ f ih =>
    intro l hl
    cases l with
    | nil => rfl
    | cons c rest =>
      have hrest : ',' ∉ rest := fun h => hl (List.mem_cons_of_mem c h)
      by_cases hc : c = '('
      · subst hc
        simp only [tupleSubF]
        rw [if_pos trivial]
        split
        · split
          · rename_i heq
            exfalso
            have hmem : ',' ∈ rest.dropWhile Char.isDigit := by
              rw [heq]
              exact List.mem_cons_self _ _
            exact hrest ((List.dropWhile_suffix _).subset hmem)
          · rw [ih rest hrest]
        · rw [ih rest hrest]
      · simp only [tupleSubF]
        rw [if_neg hc, ih rest hrest]

/-- Helper for C5: `tupleSub` fixes comma-free text. -/
theorem tupleSub_no_comma (l : List Char) (h : ',' ∉ l) : tupleSub l = l :=
  tupleSubF_no_comma l.length l h

/-- Helper for C5: the trailing-comma pass fixes comma-free text. -/
theorem commaSub_no_comma : ∀ l : List Char, ',' ∉ l → commaSub l = l := by
  intro l
  induction l with
  | nil => intro _; rfl
  | cons c rest ih =>
    intro h
    have hc : c ≠ ',' := fun hcc => h (hcc ▸ List.mem_cons_self c rest)
    simp only [commaSub]
    rw [if_neg hc, ih (fun hm => h (List.mem_cons_of_mem c hm))]

/-- Helper for C5: the control-character pass fixes control-free text. -/
theorem stripCtrl_ctrlFree (l : List Char) (h : ∀ c ∈ l, 0x20 ≤ c.toNat) :
    stripCtrl l = l := by
  unfold stripCtrl
  exact List.filter_eq_self.mpr (fun c hc => decide_eq_true (h c hc))

/-- Helper for C5: balancing only appends closing braces and brackets. -/
theorem balanceStep_shape (l : List Char) :
    ∃ r, balanceStep l = l ++ r ∧ ∀ c ∈ r, c = '\x7d' ∨ c = '\x5d' := by
  simp only [balanceStep]
  by_cases h1 : l.count '\x7d' < l.count '\x7b'
  · rw [if_pos h1]
    by_cases h2 : (l ++ List.replicate (l.count '\x7b' - l.count '\x7d') '\x7d').count '\x5d'
        < (l ++ List.replicate (l.count '\x7b' - l.count '\x7d') '\x7d').count '\x5b'
    · rw [if_pos h2]
      refine ⟨List.replicate (l.count '\x7b' - l.count '\x7d') '\x7d'
        ++ List.replicate _ '\x5d', by rw [List.append_assoc], ?_⟩
      intro c hc
      rcases List.mem_append.mp hc with h | h
      · exact Or.inl (List.eq_of_mem_replicate h)
      · exact Or.inr (List.eq_of_mem_replicate h)
    · rw [if_neg h2]
      exact ⟨List.replicate _ '\x7d', rfl,
        fun c hc => Or.inl (List.eq_of_mem_replicate hc)⟩
  · rw [if_neg h1]
    by_cases h2 : l.count '\x5d' < l.count '\x5b'
    · rw [if_pos h2]
      exact ⟨List.replicate _ '\x5d', rfl,
        fun c hc => Or.inr (List.eq_of_mem_replicate hc)⟩
    · rw [if_neg h2]
      exact ⟨[], by simp, by simp⟩

/-- Helper for C5: balancing does nothing when closers already cover the
openers. -/
theorem balanceStep_of_counts (l : List Char)
    (h1 : l.count '\x7b' ≤ l.count '\x7d')
    (h2 : l.count '\x5b' ≤ l.count '\x5d') :
    balanceStep l = l := by
  simp only [balanceStep]
  rw [if_neg (not_lt.mpr h1), if_neg (not_lt.mpr h2)]

/-- Helper for C5: balancing is idempotent. -/
theorem balanceStep_idem (l : List Char) :
    balanceStep (balanceStep l) = balanceStep l :=
  balanceStep_of_counts _ (balanceStep_counts l).1 (balanceStep_counts l).2

/-- Helper for C5: the tick scan returns `none` exactly when the text has no
three-backtick run. -/
theorem takeUntilTicks_none_iff : ∀ l : List Char,
    takeUntilTicks l = none ↔ ¬ ticks <:+: l := by
  intro l
  induction l with
  | nil =>
    simp only [takeUntilTicks]
    constructor
    · intro _ h
      rw [List.infix_nil] at h
      exact absurd h (by decide)
    · intro _; trivial
  | cons c rest ih =>
    simp only [takeUntilTicks]
    by_cases hp : ticks.isPrefixOf (c :: rest) = true
    · rw [if_pos hp]
      constructor
      · intro h; exact absurd h (by simp)
      · intro h
        exact absurd (List.infix_cons_iff.mpr
          (Or.inl (isPrefixOf_eq_true.mp hp))) h
    · rw [if_neg hp, Option.map_eq_none', ih]
      constructor
      · intro h hcontra
        rcases List.infix_cons_iff.mp hcontra with hpre | hinf
        · exact hp (isPrefixOf_eq_true.mpr hpre)
        · exact h hinf
      · intro h hinf
        exact h (List.infix_cons_iff.mpr (Or.inr hinf))

/-- Helper for C5: the text kept by the tick scan is a prefix of the
input. -/
theorem takeUntilTicks_front : ∀ (l pre : List Char),
    takeUntilTicks l = some pre → pre <+: l := by
  intro l
  induction l with
  | nil => intro pre h; cases h
  | cons c rest ih =>
    intro pre h
    simp only [takeUntilTicks] at h
    split at h
    · injection h with h
      subst h
      exact List.nil_prefix
    · rw [Option.map_eq_some'] at h
      obtain ⟨pre', h1, h2⟩ := h
      subst h2
      exact List.cons_prefix_cons.mpr ⟨rfl, ih pre' h1⟩

/-- Helper for C5: the text kept by the tick scan holds no three-backtick
run itself (the scan is lazy). -/
theorem takeUntilTicks_some_none : ∀ (l pre : List Char),
    takeUntilTicks l = some pre → takeUntilTicks pre = none := by
  intro l
  induction l with
  | nil => intro pre h; cases h
  | cons c rest ih =>
    intro pre h
    simp only [takeUntilTicks] at h
    split at h
    · injection h with h
      subst h
      rfl
    · rename_i hp
      rw [Option.map_eq_some'] at h
      obtain ⟨pre', h1, h2⟩ := h
      subst h2
      have hpre : pre' <+: rest := takeUntilTicks_front rest pre' h1
      simp only [takeUntilTicks]
      rw [if_neg, Option.map_eq_none']
      · exact ih pre' h1
      · intro hcontra
        exact hp (isPrefixOf_eq_true.mpr
          ((isPrefixOf_eq_true.mp hcontra).trans
            (List.cons_prefix_cons.mpr ⟨rfl, hpre⟩)))

/-- Helper for C5: a prefix of an appended text either lies in the left part
or reaches into the right part with one of its characters. -/
theorem front_append_cases (pat t r : List Char) (h : pat <+: t ++ r) :
    pat <+: t ∨ ∃ c ∈ r, c ∈ pat := by
  by_cases hlen : pat.length ≤ t.length
  · left
    exact List.prefix_of_prefix_length_le h (List.prefix_append t r) hlen
  · right
    push_neg at hlen
    have h2 : t <+: pat :=
      List.prefix_of_prefix_length_le (List.prefix_append t r) h (le_of_lt hlen)
    obtain ⟨suf, hsuf⟩ := h2
    obtain ⟨u, hu⟩ := h
    have hr : suf ++ u = r := by
      have hx : t ++ suf ++ u = t ++ r := by rw [hsuf, hu]
      rw [List.append_assoc] at hx
      exact List.append_cancel_left hx
    have hsufne : suf ≠ [] := by
      intro h0
      subst h0
      rw [List.append_nil] at hsuf
      rw [hsuf] at hlen
      exact absurd hlen (lt_irrefl _)
    obtain ⟨c, hc⟩ := List.exists_mem_of_ne_nil suf hsufne
    exact ⟨c, by rw [← hr]; exact List.mem_append_left u hc,
      by rw [← hsuf]; exact List.mem_append_right t hc⟩

/-- Helper for C5: an infix of an appended text either lies in the left part
or reaches into the right part with one of its characters. -/
theorem infix_append_cases (pat : List Char) (hne : pat ≠ []) :
    ∀ t r : List Char, pat <:+: t ++ r → pat <:+: t ∨ ∃ c ∈ r, c ∈ pat := by
  intro t
  induction t with
  | nil =>
    intro r h
    right
    simp only [List.nil_append] at h
    obtain ⟨c, hc⟩ := List.exists_mem_of_ne_nil pat hne
    exact ⟨c, h.subset hc, hc⟩
  | cons a t' ih =>
    intro r h
    rw [List.cons_append] at h
    rcases List.infix_cons_iff.mp h with hpre | hinf
    · rw [← List.cons_append] at hpre
      rcases front_append_cases pat (a :: t') r hpre with h1 | h1
      · exact Or.inl h1.isInfix
      · exact Or.inr h1
    · rcases ih r hinf with h1 | h1
      · exact Or.inl (List.infix_cons_iff.mpr (Or.inr h1))
      · exact Or.inr h1

/-- Helper for C5: appending backtick-free text cannot create a
three-backtick run. -/
theorem takeUntilTicks_none_append (l r : List Char)
    (hl : takeUntilTicks l = none) (hr : ∀ c ∈ r, c ≠ '\x60') :
    takeUntilTicks (l ++ r) = none := by
  rw [takeUntilTicks_none_iff] at hl ⊢
  intro h
  rcases infix_append_cases ticks (by decide) l r h with h1 | h1
  · exact hl h1
  · obtain ⟨c, hcr, hcp⟩ := h1
    have hc : c = '\x60' := by simpa [ticks] using hcp
    exact hr c hcr hc

/-- Helper for C5: text without a three-backtick run has no fenced block (the
opening tag itself starts with three backticks). -/
theorem findFenced_none_of_tut_none : ∀ l : List Char,
    takeUntilTicks l = none → findFenced l = none := by
  intro l
  induction l with
  | nil => intro _; rfl
  | cons c rest ih =>
    intro h
    have hticks : ticks <+: jsonFence := isPrefixOf_eq_true.mp (by decide)
    have hnp : ¬ (jsonFence.isPrefixOf (c :: rest) = true) := by
      intro hp
      have ht : ticks.isPrefixOf (c :: rest) = true :=
        isPrefixOf_eq_true.mpr
          (hticks.trans (isPrefixOf_eq_true.mp hp))
      rw [takeUntilTicks, if_pos ht] at h
      exact absurd h (by simp)
    have hcp : ¬ (ticks.isPrefixOf (c :: rest) = true) := by
      intro hp
      rw [takeUntilTicks, if_pos hp] at h
      exact absurd h (by simp)
    simp only [findFenced]
    rw [if_neg hnp]
    apply ih
    rw [takeUntilTicks, if_neg hcp, Option.map_eq_none'] at h
    exact h

/-- Helper for C5: text without any backtick has no fenced block. -/
theorem findFenced_none_of_no_tick : ∀ r : List Char,
    (∀ c ∈ r, c ≠ '\x60') → findFenced r = none := by
  intro r
  induction r with
  | nil => intro _; rfl
  | cons c rest ih =>
    intro h
    have hnp : ¬ (jsonFence.isPrefixOf (c :: rest) = true) := by
      intro hp
      simp only [jsonFence, List.isPrefixOf, Bool.and_eq_true, beq_iff_eq] at hp
      exact h c (List.mem_cons_self c rest) hp.1.symm
    simp only [findFenced]
    rw [if_neg hnp]
    exact ih (fun x hx => h x (List.mem_cons_of_mem c hx))

/-- Helper for C5: when a fenced block is found, its body is built from the
input's characters and holds no three-backtick run. -/
theorem findFenced_some_props : ∀ (l inner : List Char),
    findFenced l = some inner →
    (∀ c ∈ inner, c ∈ l) ∧ takeUntilTicks inner = none := by
  intro l
  induction l with
  | nil => intro inner h; cases h
  | cons c rest ih =>
    intro inner h
    simp only [findFenced] at h
    split at h
    · split at h
      · rename_i htut
        injection h with h
        subst h
        refine ⟨?_, takeUntilTicks_some_none _ _ htut⟩
        intro ch hch
        have hpre := takeUntilTicks_front _ _ htut
        have hdrop : ch ∈ (c :: rest).drop 7 := hpre.subset hch
        exact (List.drop_suffix 7 (c :: rest)).subset hdrop
      · obtain ⟨h1, h2⟩ := ih inner h
        exact ⟨fun ch hch => List.mem_cons_of_mem c (h1 ch hch), h2⟩
    · obtain ⟨h1, h2⟩ := ih inner h
      exact ⟨fun ch hch => List.mem_cons_of_mem c (h1 ch hch), h2⟩

/-- Helper for C5: appending closers to text without a fenced block cannot
create one. -/
theorem findFenced_none_append : ∀ l : List Char, findFenced l = none →
    ∀ r : List Char, (∀ c ∈ r, c = '\x7d' ∨ c = '\x5d') →
    findFenced (l ++ r) = none := by
  intro l
  induction l with
  | nil =>
    intro _ r hr
    refine findFenced_none_of_no_tick r (fun c hc => ?_)
    rcases hr c hc with h1 | h1 <;> subst h1 <;> decide
  | cons c rest ih =>
    intro h r hr
    have hr' : ∀ x ∈ r, x ≠ '\x60' := by
      intro x hx
      rcases hr x hx with h1 | h1 <;> subst h1 <;> decide
    simp only [findFenced] at h
    rw [List.cons_append]
    simp only [findFenced]
    by_cases hp : jsonFence.isPrefixOf (c :: rest) = true
    · have hp2 : jsonFence.isPrefixOf (c :: (rest ++ r)) = true := by
        refine isPrefixOf_eq_true.mpr ?_
        rw [← List.cons_append]
        exact (isPrefixOf_eq_true.mp hp).trans (List.prefix_append _ r)
      rw [if_pos hp] at h
      rw [if_pos hp2]
      split at h
      · exact absurd h (by simp)
      · rename_i htut
        have hlen : 7 ≤ (c :: rest).length := by
          have hle := (isPrefixOf_eq_true.mp hp).length_le
          simpa [jsonFence] using hle
        have hdrop : (c :: (rest ++ r)).drop 7 = (c :: rest).drop 7 ++ r := by
          rw [← List.cons_append]
          exact List.drop_append_of_le_length hlen
        rw [hdrop, takeUntilTicks_none_append _ _ htut hr']
        exact ih h r hr
    · have hp2 : ¬ (jsonFence.isPrefixOf (c :: (rest ++ r)) = true) := by
        intro hcontra
        have hcontra' : jsonFence <+: (c :: rest) ++ r := by
          rw [List.cons_append]
          exact isPrefixOf_eq_true.mp hcontra
        rcases front_append_cases jsonFence (c :: rest) r hcontra' with h1 | h1
        · exact hp (isPrefixOf_eq_true.mpr h1)
        · obtain ⟨x, hxr, hxp⟩ := h1
          rcases hr x hxr with h2 | h2 <;> subst h2 <;> simp [jsonFence] at hxp
      rw [if_neg hp] at h
      rw [if_neg hp2]
      exact ih h r hr

/-- Helper for C5: stripping whitespace keeps an infix of the input. -/
theorem pyStrip_between (l : List Char) : pyStrip l <:+: l := by
  unfold pyStrip
  have h1 : l.dropWhile pySpace <:+ l := List.dropWhile_suffix _
  have h2 : (l.dropWhile pySpace).rdropWhile pySpace <+: l.dropWhile pySpace :=
    List.rdropWhile_prefix pySpace _
  exact h2.isInfix.trans h1.isInfix

/-- Helper for C5: the fence step only keeps characters of the input. -/
theorem fenceStep_subset (l : List Char) : ∀ c ∈ fenceStep l, c ∈ l := by
  intro c hc
  cases hff : findFenced l with
  | some inner =>
    rw [fenceStep, hff] at hc
    exact (findFenced_some_props l inner hff).1 c ((pyStrip_between inner).subset hc)
  | none =>
    rw [fenceStep, hff] at hc
    exact hc

/-- Claim C5 (amended): the sanitizer chain is idempotent on inputs free of
commas and of control characters.  In general it is NOT idempotent: the
trailing-comma pass can expose a new trailing comma (see the counterexample),
and stripping a control character can join backticks into a new fenced
block. -/
theorem c5_sanitize_idempotent (x : String)
    (hcomma : ',' ∉ x.data) (hctrl : ∀ c ∈ x.data, 0x20 ≤ c.toNat) :
    fix_gemini_json (fix_gemini_json x) = fix_gemini_json x := by
  have ht_sub : ∀ c ∈ fenceStep x.data, c ∈ x.data := fenceStep_subset x.data
  have ht_comma : ',' ∉ fenceStep x.data := fun h => hcomma (ht_sub ',' h)
  have ht_ctrl : ∀ c ∈ fenceStep x.data, 0x20 ≤ c.toNat :=
    fun c h => hctrl c (ht_sub c h)
  have hfix : fix_gemini_json x = ⟨balanceStep (fenceStep x.data)⟩ := by
    unfold fix_gemini_json
    rw [tupleSub_no_comma _ ht_comma, commaSub_no_comma _ ht_comma,
      stripCtrl_ctrlFree _ ht_ctrl]
  obtain ⟨r, hr_eq, hr_mem⟩ := balanceStep_shape (fenceStep x.data)
  have hy_def : fix_gemini_json x = ⟨fenceStep x.data ++ r⟩ := by
    rw [hfix, hr_eq]
  have hy_comma : ',' ∉ fenceStep x.data ++ r := by
    intro h
    rcases List.mem_append.mp h with h | h
    · exact ht_comma h
    · rcases hr_mem ',' h with h1 | h1 <;> exact absurd h1 (by decide)
  have hy_ctrl : ∀ c ∈ fenceStep x.data ++ r, 0x20 ≤ c.toNat := by
    intro c h
    rcases List.mem_append.mp h with h | h
    · exact ht_ctrl c h
    · rcases hr_mem c h with h1 | h1 <;> subst h1 <;> decide
  have hr_tick : ∀ c ∈ r, c ≠ '\x60' := by
    intro c h
    rcases hr_mem c h with h1 | h1 <;> subst h1 <;> decide
  have hy_fence : findFenced (fenceStep x.data ++ r) = none := by
    cases hff : findFenced x.data with
    | none =>
      have hid : fenceStep x.data = x.data := by rw [fenceStep, hff]
      rw [hid]
      exact findFenced_none_append x.data hff r hr_mem
    | some inner =>
      have htt : fenceStep x.data = pyStrip inner := by rw [fenceStep, hff]
      have h1 : takeUntilTicks inner = none :=
        (findFenced_some_props _ _ hff).2
      have h2 : takeUntilTicks (fenceStep x.data) = none := by
        rw [takeUntilTicks_none_iff] at h1 ⊢
        intro hcontra
        rw [htt] at hcontra
        exact h1 (hcontra.trans (pyStrip_between inner))
      exact findFenced_none_of_tut_none _
        (takeUntilTicks_none_append _ _ h2 hr_tick)
  rw [hy_def]
  unfold fix_gemini_json
  have hdata : (⟨fenceStep x.data ++ r⟩ : String).data = fenceStep x.data ++ r := rfl
  rw [hdata]
  have hfs : fenceStep (fenceStep x.data ++ r) = fenceStep x.data ++ r := by
    rw [fenceStep, hy_fence]
  rw [hfs, tupleSub_no_comma _ hy_comma, commaSub_no_comma _ hy_comma,
    stripCtrl_ctrlFree _ hy_ctrl, ← hr_eq, balanceStep_idem]

/-- Claim C5 witness: idempotence on a comma-free, control-free input. -/
theorem c5_witness :
    fix_gemini_json (fix_gemini_json "\x7babc") = fix_gemini_json "\x7babc" :=
  c5_sanitize_idempotent "\x7babc" (by decide) (by decide)

/-- Claim C5 counterexample: on the input ",,]" one sanitizer pass removes
only the comma standing directly before the bracket, yielding ",]", and a
second pass removes the newly exposed trailing comma — so
`sanitize(sanitize(x)) ≠ sanitize(x)`. -/
theorem c5_counterexample :
    ¬(fix_gemini_json (fix_gemini_json ",,]") = fix_gemini_json ",,]") := by
  decide
